import Mathlib

/-!
Shallow embedding of the recipe-management backend (apps `core` and `recipe`).

The relational state is a `DB` value holding the three owned tables
(`Recipe`, and the identically shaped `Tag`/`Ingredient` rows, both embedded
as `Entity` rows inside a `Table` with its id counter).  The viewset code in
`app/recipe/views.py` is embedded as pure functions from a `DB`, the
authenticated user's id and the request data to an HTTP status plus the new
`DB`.  The user manager of `app/core` is embedded over a `UserDB`.
-/

namespace RecipeApp

/-- A Tag or Ingredient row: both models have exactly the fields
`id`, `user` (owner foreign key) and `name`. -/
structure Entity where
  id : Nat
  user : Nat
  name : String
deriving DecidableEq

/-- A database table of `Entity` rows together with its auto-increment
primary-key counter. -/
structure Table where
  rows : List Entity
  nextId : Nat
deriving DecidableEq

/-- A Recipe row.  `tags` and `ingredients` are the many-to-many association
sets, stored as the lists of associated `Entity` ids; `image` is the stored
upload path, when any. -/
structure Recipe where
  id : Nat
  user : Nat
  title : String
  time_minutes : Nat
  tags : List Nat
  ingredients : List Nat
  image : Option String
deriving DecidableEq

/-- The relational state the recipe app operates on. -/
structure DB where
  recipes : List Recipe
  tags : Table
  ingredients : Table
deriving DecidableEq

/-- The query parameters the list endpoints may receive, all raw strings as
they arrive in `request.query_params`. -/
structure QueryParams where
  tags : Option String
  ingredients : Option String
  assigned_only : Option String
deriving DecidableEq

/-- HTTP methods routed by the framework's router for detail URLs. -/
inductive Method where
  | get
  | put
  | patch
  | delete
deriving DecidableEq

/-- The HTTP status codes this API produces. -/
inductive Status where
  | s200
  | s201
  | s204
  | s400
  | s404
  | s405
deriving DecidableEq

/-! ### Ordering used by `order_by` -/

/-- Lexicographic less-or-equal on character lists, by code point. -/
def listCharLe : List Char → List Char → Bool
  | [], _ => true
  | _ :: _, [] => false
  | a :: as, b :: bs =>
    if a.toNat < b.toNat then true
    else if b.toNat < a.toNat then false
    else listCharLe as bs

/-- Lexicographic less-or-equal on strings, by code point. -/
def strLe (a b : String) : Bool := listCharLe a.data b.data

/-- `order_by("-id")`: `a` comes before `b` when `a.id` is the larger. -/
def idDesc (a b : Recipe) : Prop := b.id ≤ a.id

instance : DecidableRel idDesc := fun a b => Nat.decLe b.id a.id

instance : IsTotal Recipe idDesc := ⟨fun a b => Nat.le_total b.id a.id⟩

instance : IsTrans Recipe idDesc := ⟨fun _ _ _ h1 h2 => Nat.le_trans h2 h1⟩

/-- `order_by("-name")`: `a` comes before `b` when `a.name` is the larger. -/
def nameDesc (a b : Entity) : Prop := strLe b.name a.name = true

instance : DecidableRel nameDesc := fun a b =>
  inferInstanceAs (Decidable (strLe b.name a.name = true))

instance : IsTotal Entity nameDesc :=
  ⟨fun a b => by
    show listCharLe b.name.data a.name.data = true ∨
      listCharLe a.name.data b.name.data = true
    generalize b.name.data = x
    generalize a.name.data = y
    induction x generalizing y with
    | nil => exact Or.inl rfl
    | cons c cs ih =>
      cases y with
      | nil => exact Or.inr rfl
      | cons d ds =>
        rcases Nat.lt_trichotomy c.toNat d.toNat with h | h | h
        · exact Or.inl (by simp [listCharLe, h])
        · rcases ih ds with hc | hc
          · exact Or.inl (by simp [listCharLe, h, hc])
          · exact Or.inr (by simp [listCharLe, h.symm, hc])
        · exact Or.inr (by simp [listCharLe, h])⟩

instance : IsTrans Entity nameDesc :=
  ⟨fun a b c hab hbc => by
    have key : ∀ (x : List Char), ∀ (y z : List Char),
        listCharLe x y = true → listCharLe y z = true →
        listCharLe x z = true := by
      intro x
      induction x with
      | nil => intro y z _ _; rfl
      | cons d ds ih =>
        intro y z hxy hyz
        cases y with
        | nil => simp [listCharLe] at hxy
        | cons e es =>
          cases z with
          | nil => simp [listCharLe] at hyz
          | cons f fs =>
            rcases Nat.lt_trichotomy d.toNat e.toNat with h1 | h1 | h1 <;>
              rcases Nat.lt_trichotomy e.toNat f.toNat with h2 | h2 | h2
            · exact (by simp [listCharLe, show d.toNat < f.toNat by omega])
            · exact (by simp [listCharLe, show d.toNat < f.toNat by omega])
            · have h5 : ¬ e.toNat < f.toNat := by omega
              simp [listCharLe, h5, h2] at hyz
            · exact (by simp [listCharLe, show d.toNat < f.toNat by omega])
            · have h3 : ¬ d.toNat < e.toNat := by omega
              have h4 : ¬ e.toNat < d.toNat := by omega
              have h5 : ¬ e.toNat < f.toNat := by omega
              have h6 : ¬ f.toNat < e.toNat := by omega
              have h7 : ¬ d.toNat < f.toNat := by omega
              have h8 : ¬ f.toNat < d.toNat := by omega
              simp [listCharLe, h3, h4] at hxy
              simp [listCharLe, h5, h6] at hyz
              simp [listCharLe, h7, h8]
              exact ih es fs hxy hyz
            · have h5 : ¬ e.toNat < f.toNat := by omega
              simp [listCharLe, h5, h2] at hyz
            · have h3 : ¬ d.toNat < e.toNat := by omega
              simp [listCharLe, h3, h1] at hxy
            · have h3 : ¬ d.toNat < e.toNat := by omega
              simp [listCharLe, h3, h1] at hxy
            · have h3 : ¬ d.toNat < e.toNat := by omega
              simp [listCharLe, h3, h1] at hxy
    exact key c.name.data b.name.data a.name.data hbc hab⟩

/-! ### Querysets (`app/recipe/views.py`) -/

/-- The owner filter `self.queryset.filter(user=self.request.user)` applied by
`RecipeViewSet.get_queryset`. -/
def recipeUserQs (db : DB) (u : Nat) : List Recipe :=
  db.recipes.filter (fun r => r.user == u)

/-- `RecipeViewSet.get_queryset`: filter the recipes to the authenticated
user and sort by descending id.  The query parameters are available on the
request but the code never reads them. -/
def RecipeViewSet_get_queryset (db : DB) (u : Nat) (_qp : QueryParams) :
    List Recipe :=
  List.insertionSort idDesc (recipeUserQs db u)

/-- The owner filter applied by `TagViewSet.get_queryset`. -/
def tagUserQs (db : DB) (u : Nat) : List Entity :=
  db.tags.rows.filter (fun t => t.user == u)

/-- `TagViewSet.get_queryset`: filter the tags to the authenticated user and
sort by descending name.  The query parameters are never read. -/
def TagViewSet_get_queryset (db : DB) (u : Nat) (_qp : QueryParams) :
    List Entity :=
  List.insertionSort nameDesc (tagUserQs db u)

/-- The owner filter applied by `IngredientViewSet.get_queryset`. -/
def ingredientUserQs (db : DB) (u : Nat) : List Entity :=
  db.ingredients.rows.filter (fun t => t.user == u)

/-- `IngredientViewSet.get_queryset`: filter the ingredients to the
authenticated user and sort by descending name.  The query parameters are
never read. -/
def IngredientViewSet_get_queryset (db : DB) (u : Nat) (_qp : QueryParams) :
    List Entity :=
  List.insertionSort nameDesc (ingredientUserQs db u)

/-! ### Tag/Ingredient reconciliation (`app/recipe/serializers.py`) -/

/-- Modelled from the spec: the serializer bodies in
`app/recipe/serializers.py` are not among the provided sources beyond the
bare class declaration, so the get-or-create reconciliation is taken from the
spec's words.  One submitted name is resolved scoped to the owner: reuse the
existing row carrying this `user` and `name` when one exists, otherwise
append a fresh row under the next primary key. -/
def get_or_create (t : Table) (u : Nat) (n : String) : Nat × Table :=
  match t.rows.find? (fun e => e.user == u && e.name == n) with
  | some e => (e.id, t)
  | none => (t.nextId, ⟨t.rows ++ [⟨t.nextId, u, n⟩], t.nextId + 1⟩)

/-- Modelled from the spec: reconcile a whole list of submitted names in
order, threading the table through. -/
def get_or_create_list (t : Table) (u : Nat) : List String → List Nat × Table
  | [] => ([], t)
  | n :: ns =>
    let r1 := get_or_create t u n
    let r2 := get_or_create_list r1.2 u ns
    (r1.1 :: r2.1, r2.2)

/-- The body of a recipe write; an absent field is `none` and a PATCH leaves
what it omits untouched. -/
structure RecipePayload where
  title : Option String
  tags : Option (List String)
  ingredients : Option (List String)
deriving DecidableEq

/-- Modelled from the spec: the recipe serializer's update.  Each supplied
name list is resolved by owner-scoped get-or-create and the recipe's
association set is replaced wholesale with exactly the resolved id set; an
omitted (`none`) list leaves the associations untouched; a supplied title is
assigned onto the instance. -/
def RecipeSerializer_update (db : DB) (u : Nat) (rid : Nat)
    (p : RecipePayload) : DB :=
  let tr : Option (List Nat) × Table :=
    match p.tags with
    | none => (none, db.tags)
    | some ns =>
      let r := get_or_create_list db.tags u ns
      (some r.1, r.2)
  let ir : Option (List Nat) × Table :=
    match p.ingredients with
    | none => (none, db.ingredients)
    | some ns =>
      let r := get_or_create_list db.ingredients u ns
      (some r.1, r.2)
  { recipes := db.recipes.map (fun r =>
      if r.id == rid then
        { r with
          title := p.title.getD r.title,
          tags := tr.1.getD r.tags,
          ingredients := ir.1.getD r.ingredients }
      else r),
    tags := tr.2,
    ingredients := ir.2 }

/-! ### Detail dispatch (`app/recipe/views.py` + the router) -/

/-- The detail dispatch of `RecipeViewSet` (a `ModelViewSet`: retrieve,
update, partial update and destroy are all routed).  `get_object` looks the
pk up inside `get_queryset`'s owner-filtered rows, so a record that is absent
or owned by another user answers 404 and leaves the state untouched. -/
def RecipeViewSet_detail (db : DB) (u : Nat) (m : Method) (pk : Nat)
    (p : RecipePayload) : Status × DB :=
  match (recipeUserQs db u).find? (fun r => r.id == pk) with
  | none => (Status.s404, db)
  | some _ =>
    match m with
    | Method.get => (Status.s200, db)
    | Method.put => (Status.s200, RecipeSerializer_update db u pk p)
    | Method.patch => (Status.s200, RecipeSerializer_update db u pk p)
    | Method.delete =>
      (Status.s204,
        { db with recipes := db.recipes.filter (fun r => !(r.id == pk)) })

/-- The detail dispatch of `TagViewSet` (`ListModelMixin`, `UpdateModelMixin`
and `DestroyModelMixin` on a `GenericViewSet`): GET on a detail URL is not a
routed action, so it is answered 405 before any lookup; update and destroy
look the pk up in the owner-filtered queryset (404 when absent or foreign).
Destroying a tag also removes it from every recipe's association set, since
the many-to-many join rows cascade with the row. -/
def TagViewSet_detail (db : DB) (u : Nat) (m : Method) (pk : Nat)
    (newName : String) : Status × DB :=
  match m with
  | Method.get => (Status.s405, db)
  | Method.put | Method.patch =>
    match (tagUserQs db u).find? (fun t => t.id == pk) with
    | none => (Status.s404, db)
    | some _ =>
      (Status.s200,
        { db with tags := ⟨db.tags.rows.map (fun t =>
            if t.id == pk then { t with name := newName } else t),
            db.tags.nextId⟩ })
  | Method.delete =>
    match (tagUserQs db u).find? (fun t => t.id == pk) with
    | none => (Status.s404, db)
    | some _ =>
      (Status.s204,
        { db with
            tags := ⟨db.tags.rows.filter (fun t => !(t.id == pk)),
              db.tags.nextId⟩,
            recipes := db.recipes.map (fun r =>
              { r with tags := r.tags.filter (fun i => !(i == pk)) }) })

/-- The detail dispatch of `IngredientViewSet` (`ListModelMixin` and
`UpdateModelMixin` only): update looks the pk up in the owner-filtered
queryset; GET and DELETE on the detail URL are not routed actions and are
answered 405 with the state untouched. -/
def IngredientViewSet_detail (db : DB) (u : Nat) (m : Method) (pk : Nat)
    (newName : String) : Status × DB :=
  match m with
  | Method.put | Method.patch =>
    match (ingredientUserQs db u).find? (fun t => t.id == pk) with
    | none => (Status.s404, db)
    | some _ =>
      (Status.s200,
        { db with ingredients := ⟨db.ingredients.rows.map (fun t =>
            if t.id == pk then { t with name := newName } else t),
            db.ingredients.nextId⟩ })
  | _ => (Status.s405, db)

/-- `RecipeViewSet` in `app/recipe/views.py` declares no extra `@action`
method, so the router has no custom detail route such as `upload-image` to
register: a POST to `/recipes/{id}/upload-image/` matches no URL pattern and
falls through to the framework's 404, touching no state. -/
def RecipeViewSet_custom_action (db : DB) (_u : Nat) (_pk : Nat)
    (_name : String) (_body : String) : Status × DB :=
  (Status.s404, db)

/-! ### The user manager (`app/core`) -/

/-- A user row of the custom user model. -/
structure UserRec where
  id : Nat
  email : String
  password : String
  is_active : Bool
  is_staff : Bool
  is_superuser : Bool
deriving DecidableEq

/-- The user table with its auto-increment counter. -/
structure UserDB where
  users : List UserRec
  nextId : Nat
deriving DecidableEq

/-- Modelled from the spec: the splitting core of email normalization.  The
address is split at its last `@`; when there is none the characters are
returned unchanged. -/
def splitAtLastAmp : List Char → Option (List Char × List Char)
  | [] => none
  | c :: rest =>
    match splitAtLastAmp rest with
    | some p => some (c :: p.1, p.2)
    | none => if c = '@' then some ([], rest) else none

/-- Modelled from the spec (the custom user manager in `app/core/models.py`
is not among the provided sources; only its caller `core/helper.py` and the
tests are): normalization lower-cases the domain portion of the address, the
part after the last `@`, and preserves the local portion's case exactly. -/
def normalizeEmailChars (cs : List Char) : List Char :=
  match splitAtLastAmp cs with
  | none => cs
  | some p => p.1 ++ '@' :: p.2.map Char.toLower

/-- Modelled from the spec: email normalization on strings. -/
def normalize_email (e : String) : String :=
  String.mk (normalizeEmailChars e.data)

/-- Modelled from the spec: `create_user` of the custom user manager rejects
an empty email with a `ValueError` before any persistence is attempted
(embedded as `Except.error`, carrying no new state), and otherwise stores a
fresh active, non-staff user under the normalized email.  Password hashing is
elided as no claim concerns it. -/
def UserManager_create_user (db : UserDB) (email password : String) :
    Except String (UserRec × UserDB) :=
  if email = "" then Except.error "Users must have an email address"
  else
    let u : UserRec :=
      ⟨db.nextId, normalize_email email, password, true, false, false⟩
    Except.ok (u, ⟨db.users ++ [u], db.nextId + 1⟩)

/-! ### Well-formedness and counting -/

/-- Advisory name uniqueness: no two rows of the table carry the same owner
and the same name.  The schema does not enforce this; the reconciliation
logic maintains it. -/
def WfTable (t : Table) : Prop :=
  t.rows.Pairwise (fun a b => ¬(a.user = b.user ∧ a.name = b.name))

instance (t : Table) : Decidable (WfTable t) :=
  inferInstanceAs (Decidable (List.Pairwise _ _))

/-- How many rows of the list carry this owner and name. -/
def countRows (l : List Entity) (u : Nat) (n : String) : Nat :=
  (l.filter (fun e => e.user == u && e.name == n)).length

/-- How many rows of the table carry this owner and name. -/
def rowCount (t : Table) (u : Nat) (n : String) : Nat := countRows t.rows u n

/-! ### Concrete data used to witness the theorems -/

/-- A recipe of user 1 tagged 10 with ingredient 20. -/
def exRecipe1 : Recipe := ⟨1, 1, "Recipe 1", 5, [10], [20], none⟩

/-- A recipe of user 1 tagged 11 with ingredient 21. -/
def exRecipe2 : Recipe := ⟨2, 1, "Recipe 2", 7, [11], [21], none⟩

/-- A recipe of user 1 with no tag and no ingredient association. -/
def exRecipe3 : Recipe := ⟨3, 1, "Recipe 3", 9, [], [], none⟩

/-- A recipe owned by user 2. -/
def exRecipe4 : Recipe := ⟨4, 2, "Other recipe", 4, [], [], none⟩

/-- A tag owned by user 2. -/
def exTagForeign : Entity := ⟨12, 2, "Fruity"⟩

/-- An ingredient owned by user 2. -/
def exIngredientForeign : Entity := ⟨23, 2, "Vinegar"⟩

/-- A small concrete database: users 1 and 2, four recipes, three tags and
four ingredients; ingredient 22 (Salt) has no recipe association. -/
def exDb : DB :=
  { recipes := [exRecipe1, exRecipe2, exRecipe3, exRecipe4],
    tags := ⟨[⟨10, 1, "Vegan"⟩, ⟨11, 1, "Dessert"⟩, exTagForeign], 13⟩,
    ingredients := ⟨[⟨20, 1, "Apples"⟩, ⟨21, 1, "Turkey"⟩, ⟨22, 1, "Salt"⟩,
      exIngredientForeign], 24⟩ }

/-- An empty user table. -/
def exUserDb : UserDB := ⟨[], 1⟩

/-! ### Helper lemmas -/

theorem pairwise_key_inj {α : Type} (f : α → Nat) {l : List α}
    (h : l.Pairwise (fun a b => f a ≠ f b)) :
    ∀ {x y : α}, x ∈ l → y ∈ l → f x = f y → x = y := by
  induction h with
  | nil => intro x y hx _ _; exact absurd hx (List.not_mem_nil x)
  | @cons a l ha _ ih =>
    intro x y hx hy hf
    rcases List.mem_cons.mp hx with hxa | hxl
    · rcases List.mem_cons.mp hy with hya | hyl
      · rw [hxa, hya]
      · subst hxa; exact absurd hf (ha y hyl)
    · rcases List.mem_cons.mp hy with hya | hyl
      · subst hya; exact absurd hf.symm (ha x hxl)
      · exact ih hxl hyl hf

theorem find_none_of_foreign {α : Type} (f g : α → Nat) {l : List α} {u : Nat}
    (hinj : ∀ {x y : α}, x ∈ l → y ∈ l → f x = f y → x = y)
    {t : α} (ht : t ∈ l) (hu : g t ≠ u) :
    (l.filter (fun a => g a == u)).find? (fun a => f a == f t) = none := by
  rw [List.find?_eq_none]
  intro y hy hbeq
  have hmem := List.mem_filter.mp hy
  have h1 : f y = f t := by simpa using hbeq
  have h2 : y = t := hinj hmem.1 ht h1
  subst h2
  exact hu (by simpa using hmem.2)

theorem not_mem_sort_filter {α : Type} (r : α → α → Prop) [DecidableRel r]
    (p : α → Bool) {l : List α} {t : α} (ht : ¬ p t = true) :
    t ∉ List.insertionSort r (l.filter p) := by
  intro hmem
  exact ht (List.mem_filter.mp
    ((List.perm_insertionSort r (l.filter p)).mem_iff.mp hmem)).2

theorem find_some_of_owned {α : Type} (f g : α → Nat) {l : List α} {u : Nat}
    {t : α} (ht : t ∈ l) (hu : g t = u) :
    ∃ y, (l.filter (fun a => g a == u)).find? (fun a => f a == f t) = some y := by
  have h : ((l.filter (fun a => g a == u)).find?
      (fun a => f a == f t)).isSome = true := by
    rw [List.find?_isSome]
    exact ⟨t, List.mem_filter.mpr ⟨ht, by simpa using hu⟩, by simp⟩
  exact Option.isSome_iff_exists.mp h

/-! ### Claim theorems -/

/-- C8: creating a user with an empty email fails with the local validation
error before any persistence is attempted: `UserManager_create_user` answers
the error for every state and password, producing no row. -/
theorem c8_empty_email_rejected (db : UserDB) (pw : String) :
    UserManager_create_user db "" pw =
      Except.error "Users must have an email address" := rfl

/-- C3 is refuted by the code: `RecipeViewSet.get_queryset` never reads the
`tags` or `ingredients` query parameters, so with `?tags=10,11` supplied the
caller's recipe 3, which has no tag association at all, is still included in
the list response, and the response equals the unfiltered one. -/
theorem c3_filter_params_ignored :
    exRecipe3 ∈ RecipeViewSet_get_queryset exDb 1 ⟨some "10,11", none, none⟩ ∧
    exRecipe3.tags = [] ∧
    RecipeViewSet_get_queryset exDb 1 ⟨some "10,11", none, none⟩ =
      RecipeViewSet_get_queryset exDb 1 ⟨none, none, none⟩ := by decide

/-- C4 is refuted by the code: `IngredientViewSet.get_queryset` (and the tag
analogue) never reads the `assigned_only` query parameter, so with
`?assigned_only=1` the caller's ingredient 22 (Salt), which has no recipe
association, is still included in the list response. -/
theorem c4_assigned_only_ignored :
    (⟨22, 1, "Salt"⟩ : Entity) ∈
      IngredientViewSet_get_queryset exDb 1 ⟨none, none, some "1"⟩ ∧
    (∀ r ∈ exDb.recipes, ¬ (22 : Nat) ∈ r.ingredients) := by decide

/-- C6 is refuted by the code: `IngredientViewSet` mixes in only list and
update, so the router maps no DELETE on the ingredient detail URL; deleting
one's own ingredient 20 answers 405 and leaves the database untouched, where
the claim and the repo's own `test_delete_ingredient` expect 204 and
removal of the row. -/
theorem c6_ingredient_delete_not_routed :
    IngredientViewSet_detail exDb 1 Method.delete 20 "" = (Status.s405, exDb) ∧
    (⟨20, 1, "Apples"⟩ : Entity) ∈ exDb.ingredients.rows ∧
    Status.s405 ≠ Status.s204 := by decide

/-- C7 is refuted by the code: `RecipeViewSet` declares no `upload-image`
action, so the POST reaches no handler and answers the framework 404, not the
claimed 400; no state changes either way. -/
theorem c7_upload_image_route_absent :
    RecipeViewSet_custom_action exDb 1 1 "upload-image" "notimage" =
      (Status.s404, exDb) ∧
    Status.s404 ≠ Status.s400 := by decide

/-- C1 as stated is false on the code: a retrieve (GET) addressed to another
user's tag answers 405, not 404, because `TagViewSet` routes no retrieve
action at all. -/
theorem c1_counterexample :
    exTagForeign ∈ exDb.tags.rows ∧
    exTagForeign.user ≠ 1 ∧
    TagViewSet_detail exDb 1 Method.get exTagForeign.id "" =
      (Status.s405, exDb) ∧
    Status.s405 ≠ Status.s404 := by decide

/-- C1 (amended): owner isolation as the code implements it.  List responses
never contain another user's record, and a detail request addressed to
another user's record through a routed action — any method for recipes,
update or destroy for tags, update for ingredients — answers 404 (never a
403) and leaves the database unchanged.  The amendment, forced by the
counterexample: detail methods the viewset does not route (tag retrieve,
ingredient retrieve and destroy) answer 405 regardless of ownership instead
of the claimed 404. -/
theorem c1_owner_isolation (db : DB) (u : Nat) (r : Recipe) (t i : Entity)
    (qp : QueryParams) (m mt : Method) (p : RecipePayload) (nm : String)
    (hwr : db.recipes.Pairwise (fun a b => a.id ≠ b.id))
    (hwt : db.tags.rows.Pairwise (fun a b => a.id ≠ b.id))
    (hwi : db.ingredients.rows.Pairwise (fun a b => a.id ≠ b.id))
    (hr : r ∈ db.recipes) (hru : r.user ≠ u)
    (ht : t ∈ db.tags.rows) (htu : t.user ≠ u)
    (hi : i ∈ db.ingredients.rows) (hiu : i.user ≠ u)
    (hmt : mt ≠ Method.get) :
    r ∉ RecipeViewSet_get_queryset db u qp ∧
    RecipeViewSet_detail db u m r.id p = (Status.s404, db) ∧
    t ∉ TagViewSet_get_queryset db u qp ∧
    TagViewSet_detail db u mt t.id nm = (Status.s404, db) ∧
    i ∉ IngredientViewSet_get_queryset db u qp ∧
    IngredientViewSet_detail db u Method.put i.id nm = (Status.s404, db) ∧
    IngredientViewSet_detail db u Method.patch i.id nm = (Status.s404, db) := by
  have hrnone : (db.recipes.filter (fun a => a.user == u)).find?
      (fun a => a.id == r.id) = none :=
    find_none_of_foreign Recipe.id Recipe.user
      (pairwise_key_inj Recipe.id hwr) hr hru
  have htnone : (db.tags.rows.filter (fun a => a.user == u)).find?
      (fun a => a.id == t.id) = none :=
    find_none_of_foreign Entity.id Entity.user
      (pairwise_key_inj Entity.id hwt) ht htu
  have hinone : (db.ingredients.rows.filter (fun a => a.user == u)).find?
      (fun a => a.id == i.id) = none :=
    find_none_of_foreign Entity.id Entity.user
      (pairwise_key_inj Entity.id hwi) hi hiu
  refine ⟨?_, ?_, ?_, ?_, ?_, ?_, ?_⟩
  · show r ∉ List.insertionSort idDesc (db.recipes.filter (fun a => a.user == u))
    exact not_mem_sort_filter idDesc _ (by simpa using hru)
  · unfold RecipeViewSet_detail recipeUserQs
    rw [hrnone]
  · show t ∉ List.insertionSort nameDesc
      (db.tags.rows.filter (fun a => a.user == u))
    exact not_mem_sort_filter nameDesc _ (by simpa using htu)
  · cases mt with
    | get => exact absurd rfl hmt
    | put => unfold TagViewSet_detail tagUserQs; rw [htnone]
    | patch => unfold TagViewSet_detail tagUserQs; rw [htnone]
    | delete => unfold TagViewSet_detail tagUserQs; rw [htnone]
  · show i ∉ List.insertionSort nameDesc
      (db.ingredients.rows.filter (fun a => a.user == u))
    exact not_mem_sort_filter nameDesc _ (by simpa using hiu)
  · unfold IngredientViewSet_detail ingredientUserQs
    rw [hinone]
  · unfold IngredientViewSet_detail ingredientUserQs
    rw [hinone]

/-- C1 witness: the isolation theorem applied to the concrete database, user
1, the foreign recipe, tag and ingredient, a GET recipe detail and a DELETE
tag detail. -/
theorem c1_owner_isolation_witness :
    exRecipe4 ∉ RecipeViewSet_get_queryset exDb 1 ⟨none, none, none⟩ ∧
    RecipeViewSet_detail exDb 1 Method.get exRecipe4.id ⟨none, none, none⟩ =
      (Status.s404, exDb) ∧
    exTagForeign ∉ TagViewSet_get_queryset exDb 1 ⟨none, none, none⟩ ∧
    TagViewSet_detail exDb 1 Method.delete exTagForeign.id "" =
      (Status.s404, exDb) ∧
    exIngredientForeign ∉
      IngredientViewSet_get_queryset exDb 1 ⟨none, none, none⟩ ∧
    IngredientViewSet_detail exDb 1 Method.put exIngredientForeign.id "" =
      (Status.s404, exDb) ∧
    IngredientViewSet_detail exDb 1 Method.patch exIngredientForeign.id "" =
      (Status.s404, exDb) :=
  c1_owner_isolation exDb 1 exRecipe4 exTagForeign exIngredientForeign
    ⟨none, none, none⟩ Method.get Method.delete ⟨none, none, none⟩ ""
    (by decide) (by decide) (by decide) (by decide) (by decide) (by decide)
    (by decide) (by decide) (by decide) (by decide)

/-- C10: list ordering.  The recipe list endpoint returns the caller's
recipes ordered by strictly descending id (given distinct recipe ids, as the
primary key guarantees), and the tag and ingredient list endpoints return
their rows ordered by descending name (`nameDesc`). -/
theorem c10_list_ordering (db : DB) (u : Nat) (qp : QueryParams)
    (hwr : db.recipes.Pairwise (fun a b => a.id ≠ b.id)) :
    (RecipeViewSet_get_queryset db u qp).Pairwise (fun a b => b.id < a.id) ∧
    (TagViewSet_get_queryset db u qp).Pairwise nameDesc ∧
    (IngredientViewSet_get_queryset db u qp).Pairwise nameDesc := by
  refine ⟨?_, ?_, ?_⟩
  · have hs : (List.insertionSort idDesc (recipeUserQs db u)).Pairwise idDesc :=
      List.sorted_insertionSort idDesc (recipeUserQs db u)
    have h1 : (recipeUserQs db u).Pairwise (fun a b => a.id ≠ b.id) := by
      unfold recipeUserQs
      exact List.Pairwise.sublist (List.filter_sublist db.recipes) hwr
    have hne : (List.insertionSort idDesc (recipeUserQs db u)).Pairwise
        (fun a b => a.id ≠ b.id) :=
      ((List.perm_insertionSort idDesc (recipeUserQs db u)).pairwise_iff
        (fun h => h.symm)).mpr h1
    exact (hs.and hne).imp
      (fun h => Nat.lt_of_le_of_ne h.1 (fun e => h.2 e.symm))
  · exact List.sorted_insertionSort nameDesc (tagUserQs db u)
  · exact List.sorted_insertionSort nameDesc (ingredientUserQs db u)

/-- C10 witness: ordering evaluated on the concrete database for user 1. -/
theorem c10_list_ordering_witness :
    (RecipeViewSet_get_queryset exDb 1 ⟨none, none, none⟩).Pairwise
      (fun a b => b.id < a.id) ∧
    (TagViewSet_get_queryset exDb 1 ⟨none, none, none⟩).Pairwise nameDesc ∧
    (IngredientViewSet_get_queryset exDb 1 ⟨none, none, none⟩).Pairwise
      nameDesc :=
  c10_list_ordering exDb 1 ⟨none, none, none⟩ (by decide)

theorem wf_get_or_create (t : Table) (u : Nat) (n : String) (h : WfTable t) :
    WfTable (get_or_create t u n).2 := by
  unfold get_or_create
  cases hf : t.rows.find? (fun e => e.user == u && e.name == n) with
  | some e => exact h
  | none =>
    show WfTable ⟨t.rows ++ [⟨t.nextId, u, n⟩], t.nextId + 1⟩
    unfold WfTable
    rw [List.pairwise_append]
    refine ⟨h, List.pairwise_singleton _ _, ?_⟩
    intro a ha b hb
    rcases List.mem_singleton.mp hb with rfl
    have hnm := List.find?_eq_none.mp hf a ha
    intro hcon
    apply hnm
    simp only [Bool.and_eq_true, beq_iff_eq]
    exact ⟨hcon.1, hcon.2⟩

theorem wf_get_or_create_list (t : Table) (u : Nat) (ns : List String)
    (h : WfTable t) : WfTable (get_or_create_list t u ns).2 := by
  induction ns generalizing t with
  | nil => exact h
  | cons n ns ih =>
    unfold get_or_create_list
    exact ih (get_or_create t u n).2 (wf_get_or_create t u n h)

theorem wf_serializer_update (db : DB) (u rid : Nat) (p : RecipePayload)
    (hT : WfTable db.tags) (hI : WfTable db.ingredients) :
    WfTable (RecipeSerializer_update db u rid p).tags ∧
    WfTable (RecipeSerializer_update db u rid p).ingredients := by
  unfold RecipeSerializer_update
  cases hp : p.tags with
  | none =>
    cases hq : p.ingredients with
    | none => exact ⟨hT, hI⟩
    | some ns => exact ⟨hT, wf_get_or_create_list db.ingredients u ns hI⟩
  | some ns =>
    cases hq : p.ingredients with
    | none => exact ⟨wf_get_or_create_list db.tags u ns hT, hI⟩
    | some ms =>
      exact ⟨wf_get_or_create_list db.tags u ns hT,
        wf_get_or_create_list db.ingredients u ms hI⟩

theorem countRows_le_one (l : List Entity) (u : Nat) (n : String)
    (h : l.Pairwise (fun a b => ¬(a.user = b.user ∧ a.name = b.name))) :
    countRows l u n ≤ 1 := by
  induction h with
  | nil => exact Nat.zero_le 1
  | @cons a l ha hl ih =>
    unfold countRows
    by_cases hm : (a.user == u && a.name == n) = true
    · have hres : (a :: l).filter (fun e => e.user == u && e.name == n) =
          a :: l.filter (fun e => e.user == u && e.name == n) := by
        simp [List.filter_cons, hm]
      have hnil : l.filter (fun e => e.user == u && e.name == n) = [] := by
        rw [List.filter_eq_nil_iff]
        intro b hb hmb
        have hau : a.user = u ∧ a.name = n := by simpa using hm
        have hbu : b.user = u ∧ b.name = n := by simpa using hmb
        exact ha b hb ⟨hau.1.trans hbu.1.symm, hau.2.trans hbu.2.symm⟩
      rw [hres, hnil]
      exact Nat.le_refl 1
    · have hres : (a :: l).filter (fun e => e.user == u && e.name == n) =
          l.filter (fun e => e.user == u && e.name == n) := by
        simp only [List.filter_cons, Bool.not_eq_true] at hm ⊢
        rw [hm]
        simp
      rw [hres]
      exact ih

theorem serializer_update_tags_replaced (db : DB) (u rid : Nat)
    (p : RecipePayload) (names : List String) (hp : p.tags = some names)
    {r' : Recipe} (hr' : r' ∈ (RecipeSerializer_update db u rid p).recipes)
    (hid : r'.id = rid) :
    r'.tags = (get_or_create_list db.tags u names).1 := by
  unfold RecipeSerializer_update at hr'
  rw [hp] at hr'
  obtain ⟨x, hx, hfx⟩ := List.mem_map.mp hr'
  by_cases hxe : (x.id == rid) = true
  · rw [if_pos hxe] at hfx
    subst hfx
    rfl
  · rw [if_neg hxe] at hfx
    subst hfx
    exact absurd hid (by simpa using hxe)

theorem serializer_update_ingredients_replaced (db : DB) (u rid : Nat)
    (p : RecipePayload) (inames : List String)
    (hq : p.ingredients = some inames) {r' : Recipe}
    (hr' : r' ∈ (RecipeSerializer_update db u rid p).recipes)
    (hid : r'.id = rid) :
    r'.ingredients = (get_or_create_list db.ingredients u inames).1 := by
  unfold RecipeSerializer_update at hr'
  rw [hq] at hr'
  obtain ⟨x, hx, hfx⟩ := List.mem_map.mp hr'
  by_cases hxe : (x.id == rid) = true
  · rw [if_pos hxe] at hfx
    subst hfx
    rfl
  · rw [if_neg hxe] at hfx
    subst hfx
    exact absurd hid (by simpa using hxe)

/-- C2: reconciliation on recipe writes.  A write supplying tag names and
ingredient names leaves the written recipe's association sets equal to
exactly the owner-scoped get-or-create resolution of those names, and after
any two writes (idempotence included) no owner ever has two tag rows or two
ingredient rows with the same name, given the tables started without such
duplicates. -/
theorem c2_reconciliation (db : DB) (u rid₁ rid₂ : Nat) (p₁ p₂ : RecipePayload)
    (names inames : List String) (r' : Recipe) (u' : Nat) (n : String)
    (hT : WfTable db.tags) (hI : WfTable db.ingredients)
    (hp : p₁.tags = some names) (hq : p₁.ingredients = some inames)
    (hr' : r' ∈ (RecipeSerializer_update db u rid₁ p₁).recipes)
    (hid : r'.id = rid₁) :
    r'.tags = (get_or_create_list db.tags u names).1 ∧
    r'.ingredients = (get_or_create_list db.ingredients u inames).1 ∧
    rowCount (RecipeSerializer_update (RecipeSerializer_update db u rid₁ p₁)
      u rid₂ p₂).tags u' n ≤ 1 ∧
    rowCount (RecipeSerializer_update (RecipeSerializer_update db u rid₁ p₁)
      u rid₂ p₂).ingredients u' n ≤ 1 := by
  have hwf2 := wf_serializer_update db u rid₁ p₁ hT hI
  have hwf3 := wf_serializer_update (RecipeSerializer_update db u rid₁ p₁)
    u rid₂ p₂ hwf2.1 hwf2.2
  exact ⟨serializer_update_tags_replaced db u rid₁ p₁ names hp hr' hid,
    serializer_update_ingredients_replaced db u rid₁ p₁ inames hq hr' hid,
    countRows_le_one _ u' n hwf3.1, countRows_le_one _ u' n hwf3.2⟩

/-- C2 witness: writing tags Vegan (already present as row 10) and Spicy
(fresh, created as row 13) plus ingredient Salt (already present as row 22)
to recipe 1, twice, on the concrete database. -/
theorem c2_reconciliation_witness :
    (⟨1, 1, "Recipe 1", 5, [10, 13], [22], none⟩ : Recipe).tags =
      (get_or_create_list exDb.tags 1 ["Vegan", "Spicy"]).1 ∧
    (⟨1, 1, "Recipe 1", 5, [10, 13], [22], none⟩ : Recipe).ingredients =
      (get_or_create_list exDb.ingredients 1 ["Salt"]).1 ∧
    rowCount (RecipeSerializer_update (RecipeSerializer_update exDb 1 1
      ⟨none, some ["Vegan", "Spicy"], some ["Salt"]⟩) 1 1
      ⟨none, some ["Vegan", "Spicy"], some ["Salt"]⟩).tags 1 "Vegan" ≤ 1 ∧
    rowCount (RecipeSerializer_update (RecipeSerializer_update exDb 1 1
      ⟨none, some ["Vegan", "Spicy"], some ["Salt"]⟩) 1 1
      ⟨none, some ["Vegan", "Spicy"], some ["Salt"]⟩).ingredients 1 "Vegan"
      ≤ 1 :=
  c2_reconciliation exDb 1 1 1 ⟨none, some ["Vegan", "Spicy"], some ["Salt"]⟩
    ⟨none, some ["Vegan", "Spicy"], some ["Salt"]⟩ ["Vegan", "Spicy"] ["Salt"]
    ⟨1, 1, "Recipe 1", 5, [10, 13], [22], none⟩ 1 "Vegan"
    (by decide) (by decide) rfl rfl (by decide) rfl

/-- C5: PATCHing a recipe the caller owns with an empty tags list succeeds
with 200, clears every tag association of that recipe, and deletes no tag
row: the tag table afterwards is exactly what it was. -/
theorem c5_clear_tags (db : DB) (u rid : Nat) (r r' : Recipe)
    (hr : r ∈ db.recipes) (hu : r.user = u) (hid : r.id = rid)
    (hr' : r' ∈ (RecipeViewSet_detail db u Method.patch rid
      ⟨none, some [], none⟩).2.recipes)
    (hid' : r'.id = rid) :
    (RecipeViewSet_detail db u Method.patch rid ⟨none, some [], none⟩).1 =
      Status.s200 ∧
    r'.tags = [] ∧
    (RecipeViewSet_detail db u Method.patch rid ⟨none, some [], none⟩).2.tags =
      db.tags := by
  obtain ⟨y, hy⟩ := find_some_of_owned Recipe.id Recipe.user hr hu
  rw [hid] at hy
  have hdet : RecipeViewSet_detail db u Method.patch rid ⟨none, some [], none⟩
      = (Status.s200, RecipeSerializer_update db u rid ⟨none, some [], none⟩)
      := by
    unfold RecipeViewSet_detail recipeUserQs
    rw [hy]
  rw [hdet] at hr' ⊢
  refine ⟨rfl, ?_, rfl⟩
  exact serializer_update_tags_replaced db u rid ⟨none, some [], none⟩ []
    rfl hr' hid'

/-- C5 witness: clearing the tags of recipe 1 on the concrete database. -/
theorem c5_clear_tags_witness :
    (RecipeViewSet_detail exDb 1 Method.patch 1 ⟨none, some [], none⟩).1 =
      Status.s200 ∧
    (⟨1, 1, "Recipe 1", 5, [], [20], none⟩ : Recipe).tags = [] ∧
    (RecipeViewSet_detail exDb 1 Method.patch 1
      ⟨none, some [], none⟩).2.tags = exDb.tags :=
  c5_clear_tags exDb 1 1 exRecipe1 ⟨1, 1, "Recipe 1", 5, [], [20], none⟩
    (by decide) rfl rfl (by decide) rfl

theorem splitAtLastAmp_none {d : List Char} (hd : '@' ∉ d) :
    splitAtLastAmp d = none := by
  induction d with
  | nil => rfl
  | cons c cs ih =>
    have hc : ¬ (c = '@') := by
      intro e
      exact hd (by simp [e])
    have hcs : '@' ∉ cs := fun h => hd (List.mem_cons_of_mem c h)
    unfold splitAtLastAmp
    rw [ih hcs]
    simp [hc]

theorem splitAtLastAmp_append (l d : List Char) (hd : '@' ∉ d) :
    splitAtLastAmp (l ++ '@' :: d) = some (l, d) := by
  induction l with
  | nil =>
    show splitAtLastAmp ('@' :: d) = some ([], d)
    unfold splitAtLastAmp
    rw [splitAtLastAmp_none hd]
    simp
  | cons c cs ih =>
    show splitAtLastAmp (c :: (cs ++ '@' :: d)) = some (c :: cs, d)
    unfold splitAtLastAmp
    rw [ih]

/-- C9: email normalization on user creation.  For every address made of a
local portion, an `@`, and a domain portion containing no further `@`,
creating the user succeeds and stores the email with the domain portion
lower-cased and the local portion kept exactly as submitted. -/
theorem c9_email_normalization (db : UserDB) (pw : String)
    (lp dom : List Char) (hd : '@' ∉ dom) :
    ∃ u db2, UserManager_create_user db (String.mk (lp ++ '@' :: dom)) pw =
        Except.ok (u, db2) ∧
      u.email = String.mk (lp ++ '@' :: dom.map Char.toLower) := by
  have hne : String.mk (lp ++ '@' :: dom) ≠ "" := by
    intro he
    have hdata : lp ++ '@' :: dom = [] := congrArg String.data he
    exact absurd hdata (by simp)
  refine ⟨⟨db.nextId, normalize_email (String.mk (lp ++ '@' :: dom)), pw,
      true, false, false⟩,
    ⟨db.users ++ [⟨db.nextId, normalize_email (String.mk (lp ++ '@' :: dom)),
      pw, true, false, false⟩], db.nextId + 1⟩, ?_, ?_⟩
  · unfold UserManager_create_user
    rw [if_neg hne]
  · show normalize_email (String.mk (lp ++ '@' :: dom)) = _
    unfold normalize_email normalizeEmailChars
    rw [show (String.mk (lp ++ '@' :: dom)).data = lp ++ '@' :: dom from rfl]
    rw [splitAtLastAmp_append lp dom hd]

/-- C9 witness: the address Test2@Example.com is stored as
Test2@example.com — domain lowered, local-part case kept. -/
theorem c9_email_normalization_witness :
    ∃ u db2, UserManager_create_user exUserDb
        (String.mk ("Test2".data ++ '@' :: "Example.com".data)) "pw" =
        Except.ok (u, db2) ∧
      u.email = String.mk ("Test2".data ++ '@' ::
        ("Example.com".data.map Char.toLower)) :=
  c9_email_normalization exUserDb "pw" "Test2".data "Example.com".data
    (by decide)

end RecipeApp
